import Mathlib

/-!
Shallow embedding of the streaming bank-statement ingestion pipeline
(`handleFileChange` and the category handlers of the React application),
together with proofs of the specification's testable properties.

Modelling conventions:
* JavaScript strings are modelled as `List Char` (`Str`).  All string
  operations used by the code (`split('\n')`, `trim()`, `toLowerCase()`,
  template literals) are given explicit models below.
* `JSON.parse` is modelled by `jsParse`, a total recursive-descent parser
  for the JSON grammar as implemented by the platform: optional
  whitespace, objects with duplicate keys resolved last-wins in place,
  strings with escapes, numbers without leading zeros, and rejection of
  any trailing garbage.  JSON numbers are kept exactly as
  mantissa × 10^exponent (`JVal.num m e`); no property proved here
  depends on float rounding, and truthiness of a number only needs
  "value = 0", which is `m = 0`.
* `Date.now()` is modelled by a parameter `ts : Nat → Nat` giving the
  clock reading observed when the n-th record of the session is
  accepted (the code reads the clock once per accepted record).
* `localStorage` note recovery (a collaborator read in the later
  revision) is modelled by a parameter `lookupNote : JVal → Option Str`;
  a `notes: undefined` property is modelled as the key being absent,
  which is observationally equal for every property proved here.
-/

namespace BankStatement

set_option maxRecDepth 40000

/-- JavaScript strings as lists of characters. -/
abbrev Str := List Char

/-- The newline character the stream is split on. -/
def nl : Char := Char.ofNat 10

def quoteC : Char := Char.ofNat 34
def backslashC : Char := Char.ofNat 92
def slashC : Char := Char.ofNat 47
def lbraceC : Char := Char.ofNat 123
def rbraceC : Char := Char.ofNat 125
def lbrackC : Char := Char.ofNat 91
def rbrackC : Char := Char.ofNat 93
def commaC : Char := Char.ofNat 44
def colonC : Char := Char.ofNat 58
def minusC : Char := Char.ofNat 45
def plusC : Char := Char.ofNat 43
def dotC : Char := Char.ofNat 46
def zeroC : Char := Char.ofNat 48
def spaceC : Char := Char.ofNat 32
def tabC : Char := Char.ofNat 9
def crC : Char := Char.ofNat 13

/-- Convenience: the character list of a Lean string literal. -/
def litS (s : String) : Str := s.data

/-- JSON decimal digit test. -/
def isDigitC (c : Char) : Bool := 48 ≤ c.toNat && c.toNat ≤ 57

/-- A parsed JSON value, as produced by the platform's `JSON.parse`.
    Numbers are exact decimals `mantissa × 10^exponent`. -/
inductive JVal where
  | null
  | bool (b : Bool)
  | num (mantissa : Int) (exponent : Int)
  | str (s : Str)
  | arr (elems : List JVal)
  | obj (fields : List (Str × JVal))

/-- JavaScript property assignment on an object's field list: overwrite the
    value in place if the key is present, otherwise append the new key at
    the end (JS insertion-order semantics, also used by `JSON.parse` for
    duplicate keys, where the last value wins at the first position). -/
def setFields : List (Str × JVal) → Str → JVal → List (Str × JVal)
  | [], k, v => [(k, v)]
  | (k0, v0) :: fs, k, v =>
    if k0 = k then (k0, v) :: fs else (k0, v0) :: setFields fs k v

/-- Property assignment `o[k] = v` on a JSON value (identity off objects). -/
def objSet (o : JVal) (k : Str) (v : JVal) : JVal :=
  match o with
  | .obj fs => .obj (setFields fs k v)
  | other => other

/-- Property read `o[k]`: `none` models JavaScript `undefined` (also the
    result of reading a named property off a non-object). -/
def getField (o : JVal) (k : Str) : Option JVal :=
  match o with
  | .obj fs => (fs.find? (fun kv => kv.1 = k)).map (·.2)
  | _ => none

/-- JavaScript truthiness of a property-read result: `undefined`, `null`,
    `false`, the number `0` and the empty string are falsy; everything
    else (including empty arrays and objects) is truthy.  `NaN` cannot
    occur: `JSON.parse` never produces it. -/
def truthy : Option JVal → Bool
  | none => false
  | some .null => false
  | some (.bool b) => b
  | some (.num m _) => m ≠ 0
  | some (.str s) => !s.isEmpty
  | some (.arr _) => true
  | some (.obj _) => true

/-- The `typeof x === 'number'` test on a property-read result. -/
def isNumberVal : Option JVal → Bool
  | some (.num _ _) => true
  | _ => false

/-! ### Model of `String.prototype.split('\n')` -/

/-- JavaScript `s.split('\n')`: the list of (possibly empty) segments
    between newlines; never empty, and `"".split('\n') = [""]`. -/
def splitNL : Str → List Str
  | [] => [[]]
  | c :: s =>
    if c = nl then [] :: splitNL s
    else
      match splitNL s with
      | [] => [[c]]
      | seg :: segs => (c :: seg) :: segs

/-! ### Model of `String.prototype.trim()` -/

/-- The whitespace class stripped by JavaScript `trim()`; the ASCII
    members plus NBSP suffice for every string this program handles. -/
def isTrimWs (c : Char) : Bool :=
  c.toNat = 32 || (9 ≤ c.toNat && c.toNat ≤ 13) || c.toNat = 160

/-- JavaScript `s.trim()`. -/
def jsTrim (s : Str) : Str :=
  ((s.dropWhile isTrimWs).reverse.dropWhile isTrimWs).reverse

/-! ### Model of `JSON.parse`

The grammar of ECMA-404 as consumed by `JSON.parse`: a value surrounded
by optional whitespace, with syntax errors (including trailing garbage)
modelled as `none`.  Recursion is structural on a fuel counter that the
top-level entry point sets to more than the input length. -/

/-- JSON insignificant whitespace (space, tab, line feed, carriage return). -/
def isJsonWs (c : Char) : Bool :=
  c = spaceC || c = tabC || c = nl || c = crC

def dropJsonWs (s : Str) : Str := s.dropWhile isJsonWs

/-- Value of a hexadecimal digit, if it is one. -/
def hexDigitVal (c : Char) : Option Nat :=
  if 48 ≤ c.toNat && c.toNat ≤ 57 then some (c.toNat - 48)
  else if 97 ≤ c.toNat && c.toNat ≤ 102 then some (c.toNat - 87)
  else if 65 ≤ c.toNat && c.toNat ≤ 70 then some (c.toNat - 55)
  else none

/-- Single-character escapes permitted after a backslash in a JSON string. -/
def escapedChar (c : Char) : Option Char :=
  if c = quoteC then some quoteC
  else if c = backslashC then some backslashC
  else if c = slashC then some slashC
  else if c = Char.ofNat 98 then some (Char.ofNat 8)
  else if c = Char.ofNat 102 then some (Char.ofNat 12)
  else if c = Char.ofNat 110 then some nl
  else if c = Char.ofNat 114 then some crC
  else if c = Char.ofNat 116 then some tabC
  else none

/-- Scan the body of a JSON string after the opening quote, returning the
    decoded contents and the remaining input.  Raw control characters
    below U+0020 are a syntax error, as in `JSON.parse`. -/
def scanStringBody : Str → Option (Str × Str)
  | [] => none
  | c :: rest =>
    if c = quoteC then some ([], rest)
    else if c = backslashC then
      match rest with
      | [] => none
      | e :: rest2 =>
        if e = Char.ofNat 117 then
          match rest2 with
          | h1 :: h2 :: h3 :: h4 :: rest6 =>
            match hexDigitVal h1, hexDigitVal h2, hexDigitVal h3, hexDigitVal h4 with
            | some a, some b, some cc, some d =>
              (scanStringBody rest6).map
                (fun pr => (Char.ofNat (((a * 16 + b) * 16 + cc) * 16 + d) :: pr.1, pr.2))
            | _, _, _, _ => none
          | _ => none
        else
          match escapedChar e with
          | some ch => (scanStringBody rest2).map (fun pr => (ch :: pr.1, pr.2))
          | none => none
    else if c.toNat < 32 then none
    else (scanStringBody rest).map (fun pr => (c :: pr.1, pr.2))

/-- Maximal run of decimal digits at the head of the input. -/
def scanDigits : Str → Str × Str
  | [] => ([], [])
  | c :: rest =>
    if isDigitC c then
      let (ds, r) := scanDigits rest
      (c :: ds, r)
    else ([], c :: rest)

/-- Numeric value of a run of decimal digits. -/
def digitsVal (ds : Str) : Nat :=
  ds.foldl (fun acc c => acc * 10 + (c.toNat - 48)) 0

/-- Scan a JSON number: optional minus, an integer part that is either a
    single `0` or digits without a leading zero, an optional fraction,
    and an optional exponent; yields the exact decimal it denotes. -/
def scanNumber (s : Str) : Option (JVal × Str) :=
  let (neg, s1) : Bool × Str :=
    match s with
    | c :: r => if c = minusC then (true, r) else (false, s)
    | [] => (false, s)
  match s1 with
  | [] => none
  | c :: r =>
    if ¬ isDigitC c then none
    else
      let (intDs, s2) : Str × Str :=
        if c = zeroC then ([c], r)
        else
          let (ds, rr) := scanDigits r
          (c :: ds, rr)
      let fracPart : Option (Str × Str) :=
        match s2 with
        | d :: r2 =>
          if d = dotC then
            let (fds, r3) := scanDigits r2
            if fds.isEmpty then none else some (fds, r3)
          else some ([], s2)
        | [] => some ([], s2)
      match fracPart with
      | none => none
      | some (fracDs, s3) =>
        let expPart : Option (Int × Str) :=
          match s3 with
          | e :: r4 =>
            if e = Char.ofNat 101 ∨ e = Char.ofNat 69 then
              let (esign, r5) : Int × Str :=
                match r4 with
                | sc :: r6 =>
                  if sc = plusC then (1, r6)
                  else if sc = minusC then (-1, r6)
                  else (1, r4)
                | [] => (1, r4)
              let (eds, r7) := scanDigits r5
              if eds.isEmpty then none else some (esign * (digitsVal eds : Int), r7)
            else some (0, s3)
          | [] => some (0, s3)
        match expPart with
        | none => none
        | some (expVal, s4) =>
          let mant : Int :=
            (if neg then -1 else 1) * (digitsVal (intDs ++ fracDs) : Int)
          some (.num mant (expVal - (fracDs.length : Int)), s4)

mutual

/-- Parse one JSON value at the head of the input (no leading whitespace). -/
def jsParseValue : Nat → Str → Option (JVal × Str)
  | 0, _ => none
  | fuel + 1, s =>
    match s with
    | [] => none
    | c :: rest =>
      if c = lbraceC then
        match dropJsonWs rest with
        | d :: r2 =>
          if d = rbraceC then some (.obj [], r2)
          else jsParseFields fuel (d :: r2) []
        | [] => none
      else if c = lbrackC then
        match dropJsonWs rest with
        | d :: r2 =>
          if d = rbrackC then some (.arr [], r2)
          else (jsParseItems fuel (d :: r2)).map (fun pr => (.arr pr.1, pr.2))
        | [] => none
      else if c = quoteC then
        (scanStringBody rest).map (fun pr => (.str pr.1, pr.2))
      else
        match s with
        | t1 :: t2 :: t3 :: t4 :: r4 =>
          if [t1, t2, t3, t4] = litS "true" then some (.bool true, r4)
          else if [t1, t2, t3, t4] = litS "null" then some (.null, r4)
          else
            match r4 with
            | t5 :: r5 =>
              if [t1, t2, t3, t4, t5] = litS "false" then some (.bool false, r5)
              else scanNumber s
            | [] => scanNumber s
        | _ => scanNumber s

/-- Parse one-or-more comma-separated array items (the empty array was
    already handled by `jsParseValue`). -/
def jsParseItems : Nat → Str → Option (List JVal × Str)
  | 0, _ => none
  | fuel + 1, s =>
    match jsParseValue fuel s with
    | none => none
    | some (v, r) =>
      match dropJsonWs r with
      | d :: r2 =>
        if d = commaC then
          (jsParseItems fuel (dropJsonWs r2)).map (fun pr => (v :: pr.1, pr.2))
        else if d = rbrackC then some ([v], r2)
        else none
      | [] => none

/-- Parse one-or-more comma-separated object members into an accumulator,
    overwriting duplicate keys in place like JavaScript does. -/
def jsParseFields : Nat → Str → List (Str × JVal) → Option (JVal × Str)
  | 0, _, _ => none
  | fuel + 1, s, acc =>
    match s with
    | c :: rest =>
      if c = quoteC then
        match scanStringBody rest with
        | none => none
        | some (key, r1) =>
          match dropJsonWs r1 with
          | d :: r2 =>
            if d = colonC then
              match jsParseValue fuel (dropJsonWs r2) with
              | none => none
              | some (v, r3) =>
                let acc2 := setFields acc key v
                match dropJsonWs r3 with
                | e :: r4 =>
                  if e = commaC then jsParseFields fuel (dropJsonWs r4) acc2
                  else if e = rbraceC then some (.obj acc2, r4)
                  else none
                | [] => none
            else none
          | [] => none
      else none
    | [] => none

end

/-- The platform's `JSON.parse`: a value with surrounding whitespace and
    nothing else; `none` models a thrown `SyntaxError`. -/
def jsParse (s : Str) : Option JVal :=
  match jsParseValue (s.length + 1) (dropJsonWs s) with
  | none => none
  | some (v, rest) => if (dropJsonWs rest).isEmpty then some v else none

/-! ### RecordDecoder: one line of text to an accepted raw record

Embeds the per-line body of the streaming loop
(`src/unnamed/part_001` lines 121-135): skip the line when it trims to
nothing, `JSON.parse` it (a thrown error, including the `TypeError` of
reading a property off `null`, is caught and rejects the line), and
accept only when `txData.date && txData.description &&
typeof txData.amount === 'number' && txData.type`. -/

def dateK : Str := litS "date"
def descriptionK : Str := litS "description"
def amountK : Str := litS "amount"
def typeK : Str := litS "type"
def idK : Str := litS "id"
def categoryK : Str := litS "category"
def notesK : Str := litS "notes"
def uncategorizedS : Str := litS "Uncategorized"

/-- The acceptance test applied to a parsed line. -/
def recordCheck (txData : JVal) : Bool :=
  truthy (getField txData dateK) && truthy (getField txData descriptionK) &&
    isNumberVal (getField txData amountK) && truthy (getField txData typeK)

/-- Decode one complete line: the accepted parsed object, or `none` for a
    skipped/rejected line. -/
def decodeLine (line : Str) : Option JVal :=
  if (jsTrim line).isEmpty then none
  else
    match jsParse line with
    | some txData => if recordCheck txData then some txData else none
    | none => none

/-! ### IdentityAssigner -/

/-- Decimal digits of a natural number, as JavaScript template-literal
    interpolation renders it (structural on a fuel bound). -/
def natCharsAux : Nat → Nat → Str
  | 0, _ => []
  | fuel + 1, n =>
    if n < 10 then [Char.ofNat (48 + n)]
    else natCharsAux fuel (n / 10) ++ [Char.ofNat (48 + n % 10)]

def natChars (n : Nat) : Str := natCharsAux (n + 1) n

/-- The synthesized identifier `` `${Date.now()}-${transactionCount++}` ``,
    with `now` the clock reading at this acceptance. -/
def idString (now count : Nat) : Str := natChars now ++ minusC :: natChars count

/-- The transaction object built for an accepted record,
    `{ ...txData, id: ..., category: 'Uncategorized' }`: every wire field
    is spread into the new object, then `id` and `category` are written. -/
def buildTx (now count : Nat) (txData : JVal) : JVal :=
  objSet (objSet txData idK (.str (idString now count))) categoryK (.str uncategorizedS)

/-! ### StreamReassembler / IngestionPipeline

Embeds the chunk loop of `handleFileChange` (`src/unnamed/part_001`
lines 112-155).  `ts n` models the `Date.now()` reading observed when
the n-th record of the session is accepted. -/

structure IngestState where
  buffer : Str
  count : Nat
  txs : List JVal

def initState : IngestState := ⟨[], 0, []⟩

/-- The inner for-loop over one chunk's completed lines: collect the
    batch of newly accepted transactions and the advanced counter. -/
def decodeBatch (ts : Nat → Nat) : Nat → List Str → List JVal × Nat
  | count, [] => ([], count)
  | count, line :: rest =>
    match decodeLine line with
    | some txData =>
      let (batch, count2) := decodeBatch ts (count + 1) rest
      (buildTx (ts count) count txData :: batch, count2)
    | none => decodeBatch ts count rest

/-- One chunk arrival: append to the carryover, split on newline, pop the
    last segment as the new carryover, decode the completed lines, and
    append the batch (a state update only fires when it is non-empty). -/
def processChunk (ts : Nat → Nat) (st : IngestState) (chunk : Str) : IngestState :=
  let parts := splitNL (st.buffer ++ chunk)
  let (batch, count2) := decodeBatch ts st.count parts.dropLast
  { buffer := parts.getLastD [],
    count := count2,
    txs := if batch.isEmpty then st.txs else st.txs ++ batch }

/-- The whole chunk loop, in arrival order. -/
def runChunks (ts : Nat → Nat) (st : IngestState) (chunks : List Str) : IngestState :=
  chunks.foldl (processChunk ts) st

/-- The end-of-stream flush (`src/unnamed/part_001` lines 142-155): when
    the residual carryover is non-empty after trimming, one final decode
    of it is attempted and an accepted record is appended. -/
def flushBuffer (ts : Nat → Nat) (st : IngestState) : IngestState :=
  if (jsTrim st.buffer).isEmpty then st
  else
    match jsParse st.buffer with
    | some txData =>
      if recordCheck txData then
        { st with
          count := st.count + 1,
          txs := st.txs ++ [buildTx (ts st.count) st.count txData] }
      else st
    | none => st

/-- One complete ingestion session that reaches natural end of stream:
    the chunk loop followed by the flush. -/
def ingest (ts : Nat → Nat) (chunks : List Str) : IngestState :=
  flushBuffer ts (runChunks ts initState chunks)

/-! ### The third revision of the loop (`src/unnamed/part_001` lines
2001-2026): identical chunk handling with an extra saved-note lookup
(modelled by the collaborator parameter `lookupNote`), but no code after
the loop — the residual carryover is never flushed. -/

/-- The transaction object of the third revision,
    `{ ...txData, id, category, notes: savedNote ?? undefined }`; an
    absent note leaves the property `undefined`, modelled as absent. -/
def buildTxRev3 (lookupNote : JVal → Option Str) (now count : Nat) (txData : JVal) : JVal :=
  let base := buildTx now count txData
  match lookupNote txData with
  | some note => objSet base notesK (.str note)
  | none => base

def decodeBatchRev3 (ts : Nat → Nat) (lookupNote : JVal → Option Str) :
    Nat → List Str → List JVal × Nat
  | count, [] => ([], count)
  | count, line :: rest =>
    match decodeLine line with
    | some txData =>
      let (batch, count2) := decodeBatchRev3 ts lookupNote (count + 1) rest
      (buildTxRev3 lookupNote (ts count) count txData :: batch, count2)
    | none => decodeBatchRev3 ts lookupNote count rest

def processChunkRev3 (ts : Nat → Nat) (lookupNote : JVal → Option Str)
    (st : IngestState) (chunk : Str) : IngestState :=
  let parts := splitNL (st.buffer ++ chunk)
  let (batch, count2) := decodeBatchRev3 ts lookupNote st.count parts.dropLast
  { buffer := parts.getLastD [],
    count := count2,
    txs := if batch.isEmpty then st.txs else st.txs ++ batch }

/-- A whole session of the third revision: the loop runs to natural end
    of stream and the function returns — no flush of the carryover. -/
def ingestRev3 (ts : Nat → Nat) (lookupNote : JVal → Option Str)
    (chunks : List Str) : IngestState :=
  chunks.foldl (processChunkRev3 ts lookupNote) initState

/-! ### Application-level session model (for the failure path)

Embeds the `try`/`catch` structure of `handleFileChange` together with
the screen dispatch of the `App` render (`src/unnamed/part_001` lines
157-163 and 322-363): a collaborator failure jumps out of the loop
(skipping the flush), reports a message, and enters the error state,
leaving the transactions state untouched. -/

inductive AppState where
  | upload
  | analyzing
  | error
deriving DecidableEq

structure AppModel where
  appState : AppState
  session : IngestState
  errorMessage : Str

/-- An event delivered by the streaming collaborator: a text chunk, or a
    thrown failure (network/auth/quota). -/
inductive StreamEvent where
  | chunk (text : Str)
  | failure (msg : Str)

/-- The user-facing message built in the catch block. -/
def failureText (msg : Str) : Str := litS "Failed to analyze statement. " ++ msg

/-- Consume the event stream: chunks drive the reassembler; exhausting
    the stream performs the flush; a failure aborts the loop, sets the
    message and enters the error state with the store untouched. -/
def consumeEvents (ts : Nat → Nat) : AppModel → List StreamEvent → AppModel
  | m, [] => { m with session := flushBuffer ts m.session }
  | m, .chunk c :: rest => consumeEvents ts { m with session := processChunk ts m.session c } rest
  | m, .failure msg :: _ =>
    { m with appState := .error, errorMessage := failureText msg }

/-- One full session from file acceptance: state `analyzing`, an empty
    store, then the event stream. -/
def runSession (ts : Nat → Nat) (events : List StreamEvent) : AppModel :=
  consumeEvents ts ⟨.analyzing, initState, []⟩ events

/-- Screen dispatch of the first-revision `App` render: the analysis
    screen (the transaction table) renders exactly in state `analyzing`
    (line 323), and the error screen exactly in state `error` (line 363). -/
def showsAnalysisScreen (s : AppState) : Bool := s = AppState.analyzing

def showsErrorScreen (s : AppState) : Bool := s = AppState.error

/-- Screen dispatch of the `part_002` first-revision render (lines
    578 and 624): the analysis screen also renders in the error state
    when at least one transaction was ingested, and the error screen
    only when none was. -/
def showsAnalysisScreenP2 (s : AppState) (txCount : Nat) : Bool :=
  decide (s = AppState.analyzing) || (decide (s = AppState.error) && decide (0 < txCount))

def showsErrorScreenP2 (s : AppState) (txCount : Nat) : Bool :=
  decide (s = AppState.error) && decide (txCount = 0)

/-! ### TransactionStore reconciliation handlers

Embeds the category handlers of the first revision
(`src/unnamed/part_001` lines 190-239) and of the third revision (lines
2044-2052).  JavaScript `t.category === name` is a strict comparison of
a (string-valued) property against a string. -/

structure Category where
  id : Str
  name : Str
deriving DecidableEq

/-- Strict equality `p === s` of a property-read result against a string. -/
def strictEqStr (p : Option JVal) (s : Str) : Bool :=
  match p with
  | some (.str t) => t = s
  | _ => false

/-- JavaScript `toLowerCase()`, adequate for the ASCII names in play. -/
def lowerS (s : Str) : Str := s.map Char.toLower

/-- Rewrite of one transaction's category, `{ ...t, category: name }`. -/
def txSetCategory (t : JVal) (name : Str) : JVal := objSet t categoryK (.str name)

/-- First-revision `handleDeleteCategory` (lines 190-202, the body of the
    timeout): drop the category and rewrite every transaction carrying
    its name to `Uncategorized`. -/
def handleDeleteCategory (categoryId : Str) (categories : List Category)
    (transactions : List JVal) : List Category × List JVal :=
  let categoryToDelete := categories.find? (fun c => c.id = categoryId)
  let categories2 := categories.filter (fun c => ¬ c.id = categoryId)
  match categoryToDelete with
  | some cat =>
    (categories2,
     transactions.map (fun t =>
       if strictEqStr (getField t categoryK) cat.name then txSetCategory t uncategorizedS else t))
  | none => (categories2, transactions)

/-- First-revision `handleSaveCategory` (lines 214-235): guard the
    trimmed name, rename the category, and rewrite every transaction
    carrying the old name to the new one. -/
def handleSaveCategory (editingCategoryName : Str) (categoryId : Str)
    (categories : List Category) (transactions : List JVal) :
    List Category × List JVal :=
  let trimmedName := jsTrim editingCategoryName
  if trimmedName.isEmpty ∨
      categories.any (fun c => lowerS c.name = lowerS trimmedName ∧ ¬ c.id = categoryId) then
    (categories, transactions)
  else
    match categories.find? (fun c => c.id = categoryId) with
    | none => (categories, transactions)
    | some oldCategory =>
      (categories.map (fun c => if c.id = categoryId then { c with name := trimmedName } else c),
       transactions.map (fun t =>
         if strictEqStr (getField t categoryK) oldCategory.name then txSetCategory t trimmedName
         else t))

/-- First-revision `handleTransactionCategoryChange` (lines 237-239). -/
def handleTransactionCategoryChange (transactionId : Str) (newCategory : Str)
    (transactions : List JVal) : List JVal :=
  transactions.map (fun t =>
    if strictEqStr (getField t idK) transactionId then txSetCategory t newCategory else t)

/-- Third-revision `handleDeleteCategory` (lines 2044-2047): the rewrite
    compares against `categories.find(...)?.name`, which is `undefined`
    (never equal to a string category) when the id is absent. -/
def handleDeleteCategoryRev3 (categoryId : Str) (categories : List Category)
    (transactions : List JVal) : List Category × List JVal :=
  let transactions2 :=
    match categories.find? (fun c => c.id = categoryId) with
    | some cat =>
      transactions.map (fun t =>
        if strictEqStr (getField t categoryK) cat.name then txSetCategory t uncategorizedS else t)
    | none => transactions
  (categories.filter (fun c => ¬ c.id = categoryId), transactions2)

/-- Third-revision `handleSaveCategory` (lines 2049-2052): renames the
    category only — the transactions state is not touched. -/
def handleSaveCategoryRev3 (editingCategoryName : Str) (categoryId : Str)
    (categories : List Category) (transactions : List JVal) :
    List Category × List JVal :=
  (categories.map (fun c => if c.id = categoryId then { c with name := editingCategoryName } else c),
   transactions)

/-! ### Denotation helpers used to state and prove the stream properties -/

/-- Identity assignment over a run of accepted records: the n-th record of
    the session (counting from `count`) becomes a transaction stamped with
    the clock reading `ts n` and counter `n`. -/
def assignIds (ts : Nat → Nat) : Nat → List JVal → List JVal
  | _, [] => []
  | count, txData :: rest => buildTx (ts count) count txData :: assignIds ts (count + 1) rest

/-- Property deletion `delete o[k]` (identity off objects); used only to
    state "equal modulo the assigned id". -/
def objRemove (o : JVal) (k : Str) : JVal :=
  match o with
  | .obj fs => .obj (fs.filter (fun kv => ! decide (kv.1 = k)))
  | other => other

/-- A transaction with its synthesized `id` erased. -/
def stripId (t : JVal) : JVal := objRemove t idK

/-- Prepend a string onto the first segment of a split (how a carryover
    merges with the first segment of the next chunk's split). -/
def glueHead (x : Str) : List Str → List Str
  | [] => [x]
  | seg :: segs => (x ++ seg) :: segs

/-- The completed (newline-terminated) lines of an accumulated text. -/
def completedOf (s : Str) : List Str := (splitNL s).dropLast

/-- The carryover left by an accumulated text: its suffix after the last
    newline. -/
def carryOf (s : Str) : Str := (splitNL s).getLastD []

/-- The records the decoder accepts from the completed lines of an
    accumulated text, in order. -/
def recsOf (s : Str) : List JVal := (completedOf s).filterMap decodeLine

/-- All records accepted in one full session over the given chunks: those
    of the completed lines, plus the flushed carryover when it decodes. -/
def sessionRecs (chunks : List Str) : List JVal :=
  recsOf chunks.flatten ++
    (match decodeLine (carryOf chunks.flatten) with
     | some txData => [txData]
     | none => [])

/-! ## Lemmas: the newline split -/

theorem splitNL_ne_nil (s : Str) : splitNL s ≠ [] := by
  cases s with
  | nil => simp [splitNL]
  | cons c s =>
    simp only [splitNL]
    split
    · simp
    · split <;> simp

theorem not_nl_mem_splitNL : ∀ s : Str, ∀ seg ∈ splitNL s, nl ∉ seg := by
  intro s
  induction s with
  | nil =>
    intro seg h
    simp only [splitNL, List.mem_singleton] at h
    simp [h]
  | cons c s ih =>
    intro seg h
    simp only [splitNL] at h
    by_cases hc : c = nl
    · rw [if_pos hc] at h
      rcases List.mem_cons.mp h with h1 | h2
      · simp [h1]
      · exact ih seg h2
    · rw [if_neg hc] at h
      cases hsp : splitNL s with
      | nil => exact absurd hsp (splitNL_ne_nil s)
      | cons seg0 segs =>
        rw [hsp] at h
        rcases List.mem_cons.mp h with h1 | h2
        · subst h1
          intro hmem
          rcases List.mem_cons.mp hmem with h3 | h4
          · exact hc h3.symm
          · exact ih seg0 (hsp ▸ List.mem_cons_self seg0 segs) h4
        · exact ih seg (hsp ▸ List.mem_cons_of_mem seg0 h2)

theorem splitNL_of_not_mem {s : Str} (h : nl ∉ s) : splitNL s = [s] := by
  induction s with
  | nil => rfl
  | cons c s ih =>
    have hc : ¬ c = nl := fun e => h (by simp [e])
    have hs : nl ∉ s := fun hm => h (List.mem_cons_of_mem c hm)
    simp only [splitNL, if_neg hc, ih hs]

theorem getLastD_mem {α : Type} (l : List α) (d : α) (h : l ≠ []) : l.getLastD d ∈ l := by
  induction l generalizing d with
  | nil => exact absurd rfl h
  | cons a l ih =>
    cases l with
    | nil => simp [List.getLastD]
    | cons b l2 => exact List.mem_cons_of_mem a (ih a (by simp))

theorem nl_not_mem_carryOf (s : Str) : nl ∉ carryOf s :=
  not_nl_mem_splitNL s _ (getLastD_mem _ _ (splitNL_ne_nil s))

theorem getLastD_append {α : Type} (l1 l2 : List α) (d : α) (h : l2 ≠ []) :
    (l1 ++ l2).getLastD d = l2.getLastD d := by
  induction l1 generalizing d with
  | nil => rfl
  | cons a l1 ih =>
    rw [List.cons_append, List.getLastD_cons, ih a]
    cases l2 with
    | nil => exact absurd rfl h
    | cons b l3 => rw [List.getLastD_cons, List.getLastD_cons]

theorem splitNL_append (a b : Str) :
    splitNL (a ++ b) =
      (splitNL a).dropLast ++ glueHead ((splitNL a).getLastD []) (splitNL b) := by
  induction a with
  | nil =>
    cases hb : splitNL b with
    | nil => exact absurd hb (splitNL_ne_nil b)
    | cons seg segs => simp [splitNL, glueHead, List.getLastD, hb]
  | cons c a ih =>
    by_cases hc : c = nl
    · cases ha : splitNL a with
      | nil => exact absurd ha (splitNL_ne_nil a)
      | cons seg segs =>
        simp only [List.cons_append, splitNL, if_pos hc, List.append_eq, ih, ha,
          List.getLastD_cons, List.dropLast_cons₂, List.cons_append]
    · cases ha : splitNL a with
      | nil => exact absurd ha (splitNL_ne_nil a)
      | cons seg segs =>
        cases segs with
        | nil =>
          cases hb : splitNL b with
          | nil => exact absurd hb (splitNL_ne_nil b)
          | cons bseg bsegs =>
            simp [List.cons_append, splitNL, if_neg hc, List.append_eq, ih, ha, hb,
              glueHead, List.getLastD_cons]
        | cons seg2 segs2 =>
          simp [List.cons_append, splitNL, if_neg hc, List.append_eq, ih, ha,
            glueHead, List.dropLast_cons₂, List.getLastD_cons]

theorem splitNL_assoc (s t : Str) :
    splitNL (s ++ t) = completedOf s ++ splitNL (carryOf s ++ t) := by
  have h1 := splitNL_append s t
  have h2 := splitNL_append (carryOf s) t
  rw [splitNL_of_not_mem (nl_not_mem_carryOf s)] at h2
  simp only [List.dropLast_single, List.nil_append, List.getLastD_cons, List.getLastD_nil] at h2
  rw [h1, h2]
  rfl

theorem carryOf_append_assoc (s t : Str) :
    carryOf (s ++ t) = carryOf (carryOf s ++ t) := by
  unfold carryOf
  rw [splitNL_assoc s t]
  exact getLastD_append _ _ _ (splitNL_ne_nil _)

theorem completedOf_append_assoc (s t : Str) :
    completedOf (s ++ t) = completedOf s ++ completedOf (carryOf s ++ t) := by
  unfold completedOf
  rw [splitNL_assoc s t]
  exact List.dropLast_append_of_ne_nil _ (splitNL_ne_nil _)

theorem recsOf_append_assoc (s t : Str) :
    recsOf (s ++ t) = recsOf s ++ recsOf (carryOf s ++ t) := by
  unfold recsOf
  rw [completedOf_append_assoc, List.filterMap_append]

/-! ## Lemmas: the chunk loop computes the stream denotation -/

theorem assignIds_append (ts : Nat → Nat) (r1 r2 : List JVal) : ∀ c,
    assignIds ts c (r1 ++ r2) = assignIds ts c r1 ++ assignIds ts (c + r1.length) r2 := by
  induction r1 with
  | nil => intro c; simp [assignIds]
  | cons o r1 ih =>
    intro c
    simp only [List.cons_append, List.append_eq, assignIds, ih (c + 1), List.length_cons]
    rw [show c + 1 + r1.length = c + (r1.length + 1) by omega]

theorem decodeBatch_spec (ts : Nat → Nat) (lines : List Str) : ∀ c,
    decodeBatch ts c lines =
      (assignIds ts c (lines.filterMap decodeLine),
       c + (lines.filterMap decodeLine).length) := by
  induction lines with
  | nil => intro c; simp [decodeBatch, assignIds]
  | cons line rest ih =>
    intro c
    cases hd : decodeLine line with
    | none => simp [decodeBatch, hd, List.filterMap_cons, ih]
    | some o =>
      simp only [decodeBatch, hd, List.filterMap_cons, ih (c + 1), assignIds,
        List.length_cons, Prod.mk.injEq]
      exact ⟨by trivial, by omega⟩

theorem ite_isEmpty_append (t l : List JVal) : (if l.isEmpty then t else t ++ l) = t ++ l := by
  cases l <;> simp

theorem processChunk_spec (ts : Nat → Nat) (st : IngestState) (chunk : Str) :
    processChunk ts st chunk =
      ⟨carryOf (st.buffer ++ chunk),
       st.count + (recsOf (st.buffer ++ chunk)).length,
       st.txs ++ assignIds ts st.count (recsOf (st.buffer ++ chunk))⟩ := by
  unfold processChunk
  simp only [decodeBatch_spec, ite_isEmpty_append]
  rfl

theorem runChunks_spec (ts : Nat → Nat) (chunks : List Str) :
    ∀ st : IngestState, nl ∉ st.buffer →
    runChunks ts st chunks =
      ⟨carryOf (st.buffer ++ chunks.flatten),
       st.count + (recsOf (st.buffer ++ chunks.flatten)).length,
       st.txs ++ assignIds ts st.count (recsOf (st.buffer ++ chunks.flatten))⟩ := by
  induction chunks with
  | nil =>
    intro st h
    have hs : splitNL st.buffer = [st.buffer] := splitNL_of_not_mem h
    simp [runChunks, carryOf, completedOf, recsOf, hs, assignIds]
  | cons c rest ih =>
    intro st h
    have hstep : runChunks ts st (c :: rest) = runChunks ts (processChunk ts st c) rest := rfl
    rw [hstep, ih _ (by rw [processChunk_spec]; exact nl_not_mem_carryOf _),
      processChunk_spec]
    have hr : recsOf (st.buffer ++ (c ++ rest.flatten)) =
        recsOf (st.buffer ++ c) ++ recsOf (carryOf (st.buffer ++ c) ++ rest.flatten) := by
      rw [← List.append_assoc]
      exact recsOf_append_assoc _ _
    simp only [List.flatten_cons, IngestState.mk.injEq]
    refine ⟨?_, ?_, ?_⟩
    · rw [← List.append_assoc]
      exact (carryOf_append_assoc _ _).symm
    · rw [hr, List.length_append]
      omega
    · rw [hr, assignIds_append, List.append_assoc]

theorem flushBuffer_eq (ts : Nat → Nat) (st : IngestState) :
    flushBuffer ts st =
      match decodeLine st.buffer with
      | some txData =>
        ⟨st.buffer, st.count + 1, st.txs ++ [buildTx (ts st.count) st.count txData]⟩
      | none => st := by
  unfold flushBuffer decodeLine
  by_cases ht : (jsTrim st.buffer).isEmpty
  · simp [ht]
  · simp only [ht, if_neg, Bool.false_eq_true, not_false_eq_true, if_false]
    cases hp : jsParse st.buffer with
    | none => rfl
    | some txData =>
      by_cases hc : recordCheck txData
      · simp [hc]
      · simp [hc]

theorem ingest_spec (ts : Nat → Nat) (chunks : List Str) :
    (ingest ts chunks).txs = assignIds ts 0 (sessionRecs chunks) := by
  unfold ingest sessionRecs
  rw [runChunks_spec ts chunks initState (by simp [initState]), flushBuffer_eq]
  simp only [initState, List.nil_append]
  cases hd : decodeLine (carryOf chunks.flatten) with
  | none => simp [assignIds]
  | some txData =>
    simp only [assignIds_append, List.append_nil, List.nil_append, Nat.zero_add]
    simp [assignIds]

/-! ## Lemmas: object properties, `buildTx`, `stripId` -/

theorem find?_setFields_self (fs : List (Str × JVal)) (k : Str) (v : JVal) :
    ((setFields fs k v).find? (fun kv => kv.1 = k)).map (·.2) = some v := by
  induction fs with
  | nil => simp [setFields]
  | cons kv0 fs ih =>
    obtain ⟨k0, v0⟩ := kv0
    by_cases h : k0 = k
    · simp [setFields, h]
    · simp only [setFields, if_neg h]
      rw [List.find?_cons_of_neg _ (by simp [h])]
      exact ih

theorem find?_setFields_ne (fs : List (Str × JVal)) (k : Str) (v : JVal) (k2 : Str)
    (h : ¬ k2 = k) :
    (setFields fs k v).find? (fun kv => kv.1 = k2) = fs.find? (fun kv => kv.1 = k2) := by
  induction fs with
  | nil =>
    simp only [setFields, List.find?_nil]
    rw [List.find?_cons_of_neg _ (by simp [Ne.symm h]), List.find?_nil]
  | cons kv0 fs ih =>
    obtain ⟨k0, v0⟩ := kv0
    by_cases hk : k0 = k
    · simp only [setFields, if_pos hk]
      by_cases h2 : k0 = k2
      · exact absurd (h2.symm.trans hk) h
      · rw [List.find?_cons_of_neg _ (by simp [h2]), List.find?_cons_of_neg _ (by simp [h2])]
    · simp only [setFields, if_neg hk]
      by_cases h2 : k0 = k2
      · rw [List.find?_cons_of_pos _ (by simp [h2]), List.find?_cons_of_pos _ (by simp [h2])]
      · rw [List.find?_cons_of_neg _ (by simp [h2]), List.find?_cons_of_neg _ (by simp [h2])]
        exact ih


theorem getField_objSet_self (fs : List (Str × JVal)) (k : Str) (v : JVal) :
    getField (objSet (.obj fs) k v) k = some v := by
  simp only [objSet, getField]
  exact find?_setFields_self fs k v

theorem getField_objSet_ne (o : JVal) (k : Str) (v : JVal) (k2 : Str) (h : ¬ k2 = k) :
    getField (objSet o k v) k2 = getField o k2 := by
  cases o <;> simp only [objSet, getField]
  rw [find?_setFields_ne _ _ _ _ h]

theorem getField_buildTx_id (now cnt : Nat) (fs : List (Str × JVal)) :
    getField (buildTx now cnt (.obj fs)) idK = some (.str (idString now cnt)) := by
  unfold buildTx
  rw [getField_objSet_ne _ _ _ _ (by decide)]
  exact getField_objSet_self _ _ _

theorem getField_buildTx_category (now cnt : Nat) (fs : List (Str × JVal)) :
    getField (buildTx now cnt (.obj fs)) categoryK = some (.str uncategorizedS) :=
  getField_objSet_self _ _ _

theorem getField_buildTx_other (now cnt : Nat) (o : JVal) (k : Str)
    (h1 : ¬ k = idK) (h2 : ¬ k = categoryK) :
    getField (buildTx now cnt o) k = getField o k := by
  unfold buildTx
  rw [getField_objSet_ne _ _ _ _ h2, getField_objSet_ne _ _ _ _ h1]

theorem recordCheck_obj (o : JVal) (h : recordCheck o = true) : ∃ fs, o = .obj fs := by
  cases o <;> first
    | exact ⟨_, rfl⟩
    | simp [recordCheck, getField, truthy, isNumberVal] at h

theorem decodeLine_accepted {line : Str} {o : JVal} (h : decodeLine line = some o) :
    jsParse line = some o ∧ recordCheck o = true := by
  unfold decodeLine at h
  by_cases ht : (jsTrim line).isEmpty
  · simp [ht] at h
  · simp only [ht, Bool.false_eq_true, if_false] at h
    cases hp : jsParse line with
    | none => rw [hp] at h; exact absurd h (by simp)
    | some v =>
      rw [hp] at h
      change (if recordCheck v = true then some v else none) = some o at h
      by_cases hc : recordCheck v
      · rw [if_pos hc] at h
        obtain rfl := Option.some_injective _ h
        exact ⟨rfl, hc⟩
      · rw [if_neg hc] at h
        exact absurd h (by simp)

theorem filter_setFields_ne (fs : List (Str × JVal)) (k : Str) (v : JVal) (j : Str)
    (h : ¬ k = j) :
    (setFields fs k v).filter (fun kv => ! decide (kv.1 = j)) =
      setFields (fs.filter (fun kv => ! decide (kv.1 = j))) k v := by
  induction fs with
  | nil => simp [setFields, h]
  | cons kv0 fs ih =>
    obtain ⟨k0, v0⟩ := kv0
    by_cases hk : k0 = k
    · subst hk
      simp [setFields, h]
    · by_cases hj : k0 = j
      · subst hj
        simp [setFields, if_neg hk, ih]
      · simp [setFields, if_neg hk, hj, ih, if_neg hk]

theorem filter_setFields_self (fs : List (Str × JVal)) (k : Str) (v : JVal) :
    (setFields fs k v).filter (fun kv => ! decide (kv.1 = k)) =
      fs.filter (fun kv => ! decide (kv.1 = k)) := by
  induction fs with
  | nil => simp [setFields]
  | cons kv0 fs ih =>
    obtain ⟨k0, v0⟩ := kv0
    by_cases hk : k0 = k
    · simp [setFields, hk]
    · simp [setFields, if_neg hk, hk, ih]

theorem stripId_buildTx (now cnt : Nat) (o : JVal) :
    stripId (buildTx now cnt o) = objSet (objRemove o idK) categoryK (.str uncategorizedS) := by
  cases o <;> first
    | rfl
    | · simp only [buildTx, objSet, stripId, objRemove]
        rw [filter_setFields_ne _ _ _ _ (by decide), filter_setFields_self]

theorem assignIds_map_stripId (ts ts2 : Nat → Nat) (rs : List JVal) : ∀ c c2 : Nat,
    (assignIds ts c rs).map stripId = (assignIds ts2 c2 rs).map stripId := by
  induction rs with
  | nil => intro c c2; rfl
  | cons o rs ih =>
    intro c c2
    simp only [assignIds, List.map_cons, stripId_buildTx, ih (c + 1) (c2 + 1)]

theorem mem_assignIds {ts : Nat → Nat} {rs : List JVal} {tx : JVal} : ∀ {c : Nat},
    tx ∈ assignIds ts c rs → ∃ n o, o ∈ rs ∧ tx = buildTx (ts n) n o := by
  induction rs with
  | nil => intro c h; simp [assignIds] at h
  | cons r rs ih =>
    intro c h
    rcases List.mem_cons.mp h with h1 | h2
    · exact ⟨c, r, List.mem_cons_self r rs, h1⟩
    · obtain ⟨n, o, ho, he⟩ := ih h2
      exact ⟨n, o, List.mem_cons_of_mem r ho, he⟩

theorem sessionRecs_check (chunks : List Str) :
    ∀ o ∈ sessionRecs chunks, recordCheck o = true := by
  intro o ho
  unfold sessionRecs at ho
  rcases List.mem_append.mp ho with h | h
  · obtain ⟨line, _, hd⟩ := List.mem_filterMap.mp h
    exact (decodeLine_accepted hd).2
  · cases hd : decodeLine (carryOf chunks.flatten) with
    | none => rw [hd] at h; simp at h
    | some txData =>
      rw [hd] at h
      rw [List.mem_singleton.mp h]
      exact (decodeLine_accepted hd).2

/-! ## Lemmas: synthesized identifiers are pairwise distinct -/

theorem charOfNat_digit_toNat {d : Nat} (h : d < 10) : (Char.ofNat (48 + d)).toNat = 48 + d := by
  interval_cases d <;> rfl

theorem digitsVal_concat (ds : Str) (c : Char) :
    digitsVal (ds ++ [c]) = digitsVal ds * 10 + (c.toNat - 48) := by
  unfold digitsVal
  rw [List.foldl_append]
  rfl

theorem digitsVal_natCharsAux : ∀ fuel n, n < fuel → digitsVal (natCharsAux fuel n) = n := by
  intro fuel
  induction fuel with
  | zero => intro n h; omega
  | succ fuel ih =>
    intro n h
    by_cases h10 : n < 10
    · simp only [natCharsAux, if_pos h10]
      show digitsVal ([] ++ [Char.ofNat (48 + n)]) = n
      rw [digitsVal_concat, charOfNat_digit_toNat h10]
      simp [digitsVal]
    · simp only [natCharsAux, if_neg h10]
      rw [digitsVal_concat, ih (n / 10) (by omega),
        charOfNat_digit_toNat (show n % 10 < 10 by omega)]
      omega

theorem natChars_val (n : Nat) : digitsVal (natChars n) = n :=
  digitsVal_natCharsAux (n + 1) n (by omega)

theorem natChars_inj {m n : Nat} (h : natChars m = natChars n) : m = n := by
  have hm := natChars_val m
  rw [h, natChars_val] at hm
  omega

theorem digitChar_ne_minus {d : Nat} (h : d < 10) : ¬ Char.ofNat (48 + d) = minusC := by
  intro e
  have h1 : (Char.ofNat (48 + d)).toNat = 48 + d := charOfNat_digit_toNat h
  rw [e] at h1
  have h2 : minusC.toNat = 45 := rfl
  omega

theorem not_minus_mem_natCharsAux : ∀ fuel n, ∀ c ∈ natCharsAux fuel n, ¬ c = minusC := by
  intro fuel
  induction fuel with
  | zero => intro n c h; simp [natCharsAux] at h
  | succ fuel ih =>
    intro n c h
    by_cases h10 : n < 10
    · simp only [natCharsAux, if_pos h10, List.mem_singleton] at h
      subst h
      exact digitChar_ne_minus h10
    · simp only [natCharsAux, if_neg h10] at h
      rcases List.mem_append.mp h with h1 | h2
      · exact ih _ c h1
      · rw [List.mem_singleton.mp h2]
        exact digitChar_ne_minus (show n % 10 < 10 by omega)

theorem not_minus_mem_natChars (n : Nat) : ∀ c ∈ natChars n, ¬ c = minusC :=
  not_minus_mem_natCharsAux (n + 1) n

theorem append_minus_inj {a b a2 b2 : Str}
    (ha : ∀ c ∈ a, ¬ c = minusC) (ha2 : ∀ c ∈ a2, ¬ c = minusC)
    (h : a ++ minusC :: b = a2 ++ minusC :: b2) : a = a2 ∧ b = b2 := by
  induction a generalizing a2 with
  | nil =>
    cases a2 with
    | nil => simpa using h
    | cons x a2 =>
      rw [List.nil_append, List.cons_append] at h
      injection h with h1 h2
      exact absurd h1.symm (ha2 x (List.mem_cons_self x a2))
  | cons x a ih =>
    cases a2 with
    | nil =>
      rw [List.cons_append, List.nil_append] at h
      injection h with h1 h2
      exact absurd h1 (ha x (List.mem_cons_self x a))
    | cons y a2 =>
      rw [List.cons_append, List.cons_append] at h
      injection h with h1 h2
      subst h1
      obtain ⟨e1, e2⟩ := ih (fun c hc => ha c (List.mem_cons_of_mem x hc))
        (fun c hc => ha2 c (List.mem_cons_of_mem x hc)) h2
      exact ⟨by rw [e1], e2⟩

theorem idString_inj_count {t t2 c c2 : Nat} (h : idString t c = idString t2 c2) : c = c2 := by
  unfold idString at h
  obtain ⟨_, h2⟩ :=
    append_minus_inj (not_minus_mem_natChars t) (not_minus_mem_natChars t2) h
  exact natChars_inj h2

theorem assignIds_ids_nodup (ts : Nat → Nat) (rs : List JVal) :
    ∀ c, (∀ o ∈ rs, recordCheck o = true) →
      ((assignIds ts c rs).map (fun t => getField t idK)).Nodup ∧
        ∀ x ∈ (assignIds ts c rs).map (fun t => getField t idK),
          ∃ n, c ≤ n ∧ x = some (JVal.str (idString (ts n) n)) := by
  induction rs with
  | nil => intro c _; exact ⟨List.nodup_nil, by simp [assignIds]⟩
  | cons o rs ih =>
    intro c hrs
    obtain ⟨fs, rfl⟩ := recordCheck_obj o (hrs _ (List.mem_cons_self _ _))
    obtain ⟨ihn, ihc⟩ := ih (c + 1) (fun o ho => hrs o (List.mem_cons_of_mem _ ho))
    simp only [assignIds, List.map_cons, getField_buildTx_id]
    refine ⟨List.nodup_cons.mpr ⟨?_, ihn⟩, ?_⟩
    · intro hmem
      obtain ⟨n, hn, he⟩ := ihc _ hmem
      have : idString (ts c) c = idString (ts n) n := by
        injection he with he2
        injection he2
      have := idString_inj_count this
      omega
    · intro x hx
      rcases List.mem_cons.mp hx with h1 | h2
      · exact ⟨c, le_refl c, h1⟩
      · obtain ⟨n, hn, he⟩ := ihc x h2
        exact ⟨n, by omega, he⟩

/-! ## Lemmas: a stream of newline-terminated lines -/

theorem splitNL_flatten_lines (lines : List Str) (h : ∀ l ∈ lines, nl ∉ l) :
    splitNL (lines.map (fun l => l ++ [nl])).flatten = lines ++ [[]] := by
  induction lines with
  | nil => rfl
  | cons l rest ih =>
    rw [List.map_cons, List.flatten_cons, List.append_assoc, List.singleton_append,
      splitNL_append l (nl :: (rest.map (fun l => l ++ [nl])).flatten)]
    rw [splitNL_of_not_mem (h l (List.mem_cons_self l rest))]
    have hs : splitNL (nl :: (rest.map (fun l => l ++ [nl])).flatten) =
        [] :: splitNL (rest.map (fun l => l ++ [nl])).flatten := by
      simp [splitNL]
    rw [hs, ih (fun l2 hl2 => h l2 (List.mem_cons_of_mem l hl2))]
    simp [glueHead]

theorem decodeLine_nil : decodeLine ([] : Str) = none := rfl

theorem ingest_lines (ts : Nat → Nat) (chunks lines : List Str)
    (h1 : ∀ l ∈ lines, nl ∉ l)
    (h2 : chunks.flatten = (lines.map (fun l => l ++ [nl])).flatten) :
    (ingest ts chunks).txs = assignIds ts 0 (lines.filterMap decodeLine) := by
  rw [ingest_spec]
  have hsess : sessionRecs chunks = lines.filterMap decodeLine := by
    unfold sessionRecs recsOf completedOf carryOf
    rw [h2, splitNL_flatten_lines lines h1, List.dropLast_concat,
      getLastD_append _ [[]] [] (by simp), List.getLastD_cons, List.getLastD_nil,
      decodeLine_nil]
    simp
  rw [hsess]

theorem forall2_filterMap (lines : List Str) (recs : List JVal)
    (h : List.Forall₂ (fun l r => decodeLine l = some r) lines recs) :
    lines.filterMap decodeLine = recs := by
  induction h with
  | nil => rfl
  | cons hd _ ih => simp [List.filterMap_cons, hd, ih]

/-! ## The claims -/

/-- C1: for any text and any decomposition of it into chunks, feeding the
    chunks sequentially through the streaming loop (append to carryover,
    split on newline, pop the last segment as new carryover, decode the
    completed lines) yields exactly the same sequence of accepted
    transactions, modulo the assigned `id`, as feeding the whole text as
    one chunk — whatever clock readings the two runs observe. -/
theorem chunk_boundary_invariance (ts ts2 : Nat → Nat) (chunks : List Str) :
    ((runChunks ts initState chunks).txs).map stripId =
      ((runChunks ts2 initState [chunks.flatten]).txs).map stripId := by
  rw [runChunks_spec ts chunks initState (by simp [initState]),
    runChunks_spec ts2 [chunks.flatten] initState (by simp [initState])]
  simp only [initState, List.nil_append, List.flatten_cons, List.flatten_nil,
    List.append_nil]
  exact assignIds_map_stripId ts ts2 _ 0 0

/-- C2: when the concatenated stream is a sequence of newline-terminated
    lines each of which decodes to a record, the transactions in the store
    after the session are exactly those records, in the original line
    order (each stamped with its session counter), however the text was
    distributed over chunks; in particular there are exactly as many
    transactions as lines. -/
theorem order_preservation (ts : Nat → Nat) (chunks lines : List Str) (recs : List JVal)
    (h1 : ∀ l ∈ lines, nl ∉ l)
    (h2 : chunks.flatten = (lines.map (fun l => l ++ [nl])).flatten)
    (h3 : List.Forall₂ (fun l r => decodeLine l = some r) lines recs) :
    (ingest ts chunks).txs = assignIds ts 0 recs ∧
      (ingest ts chunks).txs.length = lines.length := by
  have he : (ingest ts chunks).txs = assignIds ts 0 recs := by
    rw [ingest_lines ts chunks lines h1 h2, forall2_filterMap _ _ h3]
  have hlen : ∀ (c : Nat) (rs : List JVal), (assignIds ts c rs).length = rs.length := by
    intro c rs
    induction rs generalizing c with
    | nil => rfl
    | cons r rs ih => simp [assignIds, ih]
  exact ⟨he, by rw [he, hlen, h3.length_eq]⟩

/-- C3: all identifiers assigned within one ingestion session are pairwise
    distinct, whatever the clock does — in particular when several records
    are accepted in one chunk or within the same clock tick —, because the
    dash-separated session counter alone separates them. -/
theorem id_uniqueness (ts : Nat → Nat) (chunks : List Str) :
    ((ingest ts chunks).txs.map (fun t => getField t idK)).Nodup := by
  rw [ingest_spec]
  exact (assignIds_ids_nodup ts (sessionRecs chunks) 0 (sessionRecs_check chunks)).1

/-- C5: when the concatenated stream is a sequence of newline-terminated
    lines — valid ones interleaved with invalid ones (empty or
    whitespace-only, truncated, missing fields, mistyped amounts) — the
    transactions in the store are exactly the decodable lines' records in
    their relative order: each rejected line is skipped without affecting
    its siblings, and the session still runs to completion. -/
theorem malformed_line_tolerance (ts : Nat → Nat) (chunks lines : List Str)
    (h1 : ∀ l ∈ lines, nl ∉ l)
    (h2 : chunks.flatten = (lines.map (fun l => l ++ [nl])).flatten) :
    (ingest ts chunks).txs = assignIds ts 0 (lines.filterMap decodeLine) :=
  ingest_lines ts chunks lines h1 h2

/-- Witness for C2 at the specification's example scenario: two records
    arriving split mid-field and mid-key across three chunks come out as
    exactly those two transactions, in order. -/
theorem order_preservation_witness :
    (ingest (fun _ => 0)
        [litS "\x7b\"date\":\"2024-01-05\",\"description\":\"Coffee\",\"amount\":5.",
         litS "50,\"type\":\"debit\"\x7d\n\x7b\"date\":\"2024-01-06\",\"desc",
         litS "ription\":\"Salary\",\"amount\":2000,\"type\":\"credit\"\x7d\n"]).txs =
      assignIds (fun _ => 0) 0
        [.obj [(litS "date", .str (litS "2024-01-05")),
               (litS "description", .str (litS "Coffee")),
               (litS "amount", .num 550 (-2)), (litS "type", .str (litS "debit"))],
         .obj [(litS "date", .str (litS "2024-01-06")),
               (litS "description", .str (litS "Salary")),
               (litS "amount", .num 2000 0), (litS "type", .str (litS "credit"))]] ∧
    (ingest (fun _ => 0)
        [litS "\x7b\"date\":\"2024-01-05\",\"description\":\"Coffee\",\"amount\":5.",
         litS "50,\"type\":\"debit\"\x7d\n\x7b\"date\":\"2024-01-06\",\"desc",
         litS "ription\":\"Salary\",\"amount\":2000,\"type\":\"credit\"\x7d\n"]).txs.length =
      ([litS "\x7b\"date\":\"2024-01-05\",\"description\":\"Coffee\",\"amount\":5.50,\"type\":\"debit\"\x7d",
        litS "\x7b\"date\":\"2024-01-06\",\"description\":\"Salary\",\"amount\":2000,\"type\":\"credit\"\x7d"] :
        List Str).length :=
  order_preservation (fun _ => 0)
    [litS "\x7b\"date\":\"2024-01-05\",\"description\":\"Coffee\",\"amount\":5.",
     litS "50,\"type\":\"debit\"\x7d\n\x7b\"date\":\"2024-01-06\",\"desc",
     litS "ription\":\"Salary\",\"amount\":2000,\"type\":\"credit\"\x7d\n"]
    [litS "\x7b\"date\":\"2024-01-05\",\"description\":\"Coffee\",\"amount\":5.50,\"type\":\"debit\"\x7d",
     litS "\x7b\"date\":\"2024-01-06\",\"description\":\"Salary\",\"amount\":2000,\"type\":\"credit\"\x7d"]
    [.obj [(litS "date", .str (litS "2024-01-05")),
           (litS "description", .str (litS "Coffee")),
           (litS "amount", .num 550 (-2)), (litS "type", .str (litS "debit"))],
     .obj [(litS "date", .str (litS "2024-01-06")),
           (litS "description", .str (litS "Salary")),
           (litS "amount", .num 2000 0), (litS "type", .str (litS "credit"))]]
    (by decide) (by decide)
    (List.Forall₂.cons rfl (List.Forall₂.cons rfl List.Forall₂.nil))

/-- Witness for C5: a stream interleaving two valid records with an empty
    line, a whitespace-only line, a truncated JSON fragment, a record
    missing its required fields, and a record with a string-typed amount,
    delivered across two uneven chunks, yields exactly the two valid
    records in order. -/
theorem malformed_line_tolerance_witness :
    (ingest (fun _ => 0)
        [litS "\x7b\"date\":\"2024-01-05\",\"description\":\"Coffee\",\"amount\":5,\"type\":\"debit\"\x7d\n\n   \n\x7b\"da",
         litS "te\":\nnot json\n\x7b\"date\":\"2024-01-07\",\"description\":\"X\",\"amount\":\"5\",\"type\":\"debit\"\x7d\n\x7b\"date\":\"2024-01-06\",\"description\":\"Salary\",\"amount\":2000,\"type\":\"credit\"\x7d\n"]).txs =
      assignIds (fun _ => 0) 0
        (([litS "\x7b\"date\":\"2024-01-05\",\"description\":\"Coffee\",\"amount\":5,\"type\":\"debit\"\x7d",
           litS "", litS "   ", litS "\x7b\"da" ++ litS "te\":", litS "not json",
           litS "\x7b\"date\":\"2024-01-07\",\"description\":\"X\",\"amount\":\"5\",\"type\":\"debit\"\x7d",
           litS "\x7b\"date\":\"2024-01-06\",\"description\":\"Salary\",\"amount\":2000,\"type\":\"credit\"\x7d"] :
          List Str).filterMap decodeLine) :=
  malformed_line_tolerance (fun _ => 0)
    [litS "\x7b\"date\":\"2024-01-05\",\"description\":\"Coffee\",\"amount\":5,\"type\":\"debit\"\x7d\n\n   \n\x7b\"da",
     litS "te\":\nnot json\n\x7b\"date\":\"2024-01-07\",\"description\":\"X\",\"amount\":\"5\",\"type\":\"debit\"\x7d\n\x7b\"date\":\"2024-01-06\",\"description\":\"Salary\",\"amount\":2000,\"type\":\"credit\"\x7d\n"]
    [litS "\x7b\"date\":\"2024-01-05\",\"description\":\"Coffee\",\"amount\":5,\"type\":\"debit\"\x7d",
     litS "", litS "   ", litS "\x7b\"da" ++ litS "te\":", litS "not json",
     litS "\x7b\"date\":\"2024-01-07\",\"description\":\"X\",\"amount\":\"5\",\"type\":\"debit\"\x7d",
     litS "\x7b\"date\":\"2024-01-06\",\"description\":\"Salary\",\"amount\":2000,\"type\":\"credit\"\x7d"]
    (by decide) (by decide)

/-- C4: at end of stream the first-revision pipeline flushes the residual
    carryover — a stream ending without a trailing newline after a valid
    record still yields that record — while the third-revision loop
    (`src/unnamed/part_001` lines 2001-2035) returns without any flush and
    silently drops the same record: evaluated at the one-chunk stream
    holding one valid record and no trailing newline. -/
theorem end_of_stream_flush_divergence :
    decodeLine (litS "\x7b\"date\":\"2024-01-05\",\"description\":\"Coffee\",\"amount\":5,\"type\":\"debit\"\x7d") =
      some (.obj [(litS "date", .str (litS "2024-01-05")),
                  (litS "description", .str (litS "Coffee")),
                  (litS "amount", .num 5 0), (litS "type", .str (litS "debit"))]) ∧
    (ingest (fun _ => 0)
        [litS "\x7b\"date\":\"2024-01-05\",\"description\":\"Coffee\",\"amount\":5,\"type\":\"debit\"\x7d"]).txs =
      [buildTx 0 0 (.obj [(litS "date", .str (litS "2024-01-05")),
                          (litS "description", .str (litS "Coffee")),
                          (litS "amount", .num 5 0), (litS "type", .str (litS "debit"))])] ∧
    (ingestRev3 (fun _ => 0) (fun _ => none)
        [litS "\x7b\"date\":\"2024-01-05\",\"description\":\"Coffee\",\"amount\":5,\"type\":\"debit\"\x7d"]).txs =
      [] :=
  ⟨rfl, rfl, rfl⟩

/-- Helper: a failure event after a prefix of chunks aborts the loop with
    the store as the chunk prefix left it. -/
theorem consumeEvents_failure (ts : Nat → Nat) (msg : Str) :
    ∀ (pre : List Str) (m : AppModel),
      consumeEvents ts m (pre.map StreamEvent.chunk ++ [StreamEvent.failure msg]) =
        ⟨AppState.error, List.foldl (processChunk ts) m.session pre, failureText msg⟩ := by
  intro pre
  induction pre with
  | nil => intro m; rfl
  | cons c pre ih => intro m; exact ih _

/-- C6 (amended): a collaborator failure during streaming preserves the
    transactions already appended — the store holds exactly the batches of
    the chunks processed before the failure — and sets the error state and
    message; however the first-revision render then hides the transaction
    table (it renders only in state `analyzing`), and only the `part_002`
    revision keeps the table visible in the failure state, exactly when at
    least one transaction was ingested. -/
theorem failure_preserves_store (ts : Nat → Nat) (pre : List Str) (msg : Str) :
    (runSession ts (pre.map StreamEvent.chunk ++ [StreamEvent.failure msg])).session.txs =
        (runChunks ts initState pre).txs ∧
    (runSession ts (pre.map StreamEvent.chunk ++ [StreamEvent.failure msg])).appState =
        AppState.error ∧
    (runSession ts (pre.map StreamEvent.chunk ++ [StreamEvent.failure msg])).errorMessage =
        failureText msg ∧
    showsAnalysisScreen AppState.error = false ∧
    (∀ n : Nat, showsAnalysisScreenP2 AppState.error n = decide (0 < n)) := by
  unfold runSession
  rw [consumeEvents_failure ts msg pre ⟨AppState.analyzing, initState, []⟩]
  exact ⟨rfl, rfl, rfl, rfl, fun n => rfl⟩

/-- C6 (counterexample): after one chunk carrying a complete record and a
    collaborator failure, the store still holds the transaction, but the
    first-revision render — the one the claim cites — does not show the
    transaction table in the failure state: the error screen replaces it. -/
theorem failure_hides_partial_table :
    (runSession (fun _ => 0)
        [StreamEvent.chunk (litS "\x7b\"date\":\"2024-01-05\",\"description\":\"Coffee\",\"amount\":5,\"type\":\"debit\"\x7d\n"),
         StreamEvent.failure (litS "network error")]).session.txs.length = 1 ∧
    (runSession (fun _ => 0)
        [StreamEvent.chunk (litS "\x7b\"date\":\"2024-01-05\",\"description\":\"Coffee\",\"amount\":5,\"type\":\"debit\"\x7d\n"),
         StreamEvent.failure (litS "network error")]).appState = AppState.error ∧
    showsAnalysisScreen
      (runSession (fun _ => 0)
        [StreamEvent.chunk (litS "\x7b\"date\":\"2024-01-05\",\"description\":\"Coffee\",\"amount\":5,\"type\":\"debit\"\x7d\n"),
         StreamEvent.failure (litS "network error")]).appState = false :=
  ⟨rfl, rfl, rfl⟩

/-- C7 (counterexample): the decoder does not restrict `type` to the two
    tags: a record with `type` equal to `"transfer"` is accepted, and the
    store then holds a transaction whose `type` is neither `"debit"` nor
    `"credit"`. -/
theorem store_type_not_tag :
    (ingest (fun _ => 0)
        [litS "\x7b\"date\":\"2024-01-01\",\"description\":\"x\",\"amount\":1,\"type\":\"transfer\"\x7d\n"]).txs =
      [buildTx 0 0 (.obj [(litS "date", .str (litS "2024-01-01")),
                          (litS "description", .str (litS "x")),
                          (litS "amount", .num 1 0),
                          (litS "type", .str (litS "transfer"))])] ∧
    getField
        (buildTx 0 0 (.obj [(litS "date", .str (litS "2024-01-01")),
                            (litS "description", .str (litS "x")),
                            (litS "amount", .num 1 0),
                            (litS "type", .str (litS "transfer"))])) typeK =
      some (.str (litS "transfer")) ∧
    ¬ litS "transfer" = litS "debit" ∧ ¬ litS "transfer" = litS "credit" :=
  ⟨rfl, rfl, by decide, by decide⟩

/-- C7 (amended): every transaction ever present in the store has a
    numeric `amount` and truthy `date`, `description` and `type` — the
    checks the decoder actually performs; `type` is not validated against
    the two tags, nor `date`/`description` against string shape. -/
theorem store_field_shapes (ts : Nat → Nat) (chunks : List Str) :
    ∀ tx ∈ (ingest ts chunks).txs,
      isNumberVal (getField tx amountK) = true ∧ truthy (getField tx dateK) = true ∧
        truthy (getField tx descriptionK) = true ∧ truthy (getField tx typeK) = true := by
  intro tx htx
  rw [ingest_spec] at htx
  obtain ⟨n, o, ho, rfl⟩ := mem_assignIds htx
  have hc := sessionRecs_check chunks o ho
  have hc2 := hc
  unfold recordCheck at hc2
  simp only [Bool.and_eq_true] at hc2
  obtain ⟨⟨⟨hdate, hdesc⟩, ham⟩, hty⟩ := hc2
  refine ⟨?_, ?_, ?_, ?_⟩ <;>
    rw [getField_buildTx_other _ _ _ _ (by decide) (by decide)] <;> assumption

/-- Witness for C7 (amended), at the one-record stream of the flush
    counterexample input with a trailing newline. -/
theorem store_field_shapes_witness :
    isNumberVal (getField
      (buildTx 0 0 (.obj [(litS "date", .str (litS "2024-01-05")),
                          (litS "description", .str (litS "Coffee")),
                          (litS "amount", .num 5 0), (litS "type", .str (litS "debit"))]))
      amountK) = true ∧
    truthy (getField
      (buildTx 0 0 (.obj [(litS "date", .str (litS "2024-01-05")),
                          (litS "description", .str (litS "Coffee")),
                          (litS "amount", .num 5 0), (litS "type", .str (litS "debit"))]))
      dateK) = true ∧
    truthy (getField
      (buildTx 0 0 (.obj [(litS "date", .str (litS "2024-01-05")),
                          (litS "description", .str (litS "Coffee")),
                          (litS "amount", .num 5 0), (litS "type", .str (litS "debit"))]))
      descriptionK) = true ∧
    truthy (getField
      (buildTx 0 0 (.obj [(litS "date", .str (litS "2024-01-05")),
                          (litS "description", .str (litS "Coffee")),
                          (litS "amount", .num 5 0), (litS "type", .str (litS "debit"))]))
      typeK) = true :=
  store_field_shapes (fun _ => 0)
    [litS "\x7b\"date\":\"2024-01-05\",\"description\":\"Coffee\",\"amount\":5,\"type\":\"debit\"\x7d\n"]
    (buildTx 0 0 (.obj [(litS "date", .str (litS "2024-01-05")),
                        (litS "description", .str (litS "Coffee")),
                        (litS "amount", .num 5 0), (litS "type", .str (litS "debit"))]))
    (List.mem_singleton_self _)

/-- C8: the first-revision category handlers satisfy the reconciliation
    scenario — renaming `Groceries` to `Food` rewrites the transaction
    carrying it, and deleting the renamed category then rewrites it to
    `Uncategorized` — while the third-revision `handleSaveCategory`
    (`src/unnamed/part_001` lines 2049-2052) leaves the transaction on
    `Groceries` for every input: the rename half of the claim fails there. -/
theorem category_reconciliation_divergence :
    ((handleSaveCategory (litS "Food") (litS "1") [⟨litS "1", litS "Groceries"⟩]
        [txSetCategory
          (buildTx 0 0 (.obj [(litS "date", .str (litS "2024-01-05")),
                              (litS "description", .str (litS "Coffee")),
                              (litS "amount", .num 5 0), (litS "type", .str (litS "debit"))]))
          (litS "Groceries")]).2.map (fun t => getField t categoryK)) =
      [some (.str (litS "Food"))] ∧
    ((handleDeleteCategory (litS "1")
        (handleSaveCategory (litS "Food") (litS "1") [⟨litS "1", litS "Groceries"⟩]
          [txSetCategory
            (buildTx 0 0 (.obj [(litS "date", .str (litS "2024-01-05")),
                                (litS "description", .str (litS "Coffee")),
                                (litS "amount", .num 5 0), (litS "type", .str (litS "debit"))]))
            (litS "Groceries")]).1
        (handleSaveCategory (litS "Food") (litS "1") [⟨litS "1", litS "Groceries"⟩]
          [txSetCategory
            (buildTx 0 0 (.obj [(litS "date", .str (litS "2024-01-05")),
                                (litS "description", .str (litS "Coffee")),
                                (litS "amount", .num 5 0), (litS "type", .str (litS "debit"))]))
            (litS "Groceries")]).2).2.map (fun t => getField t categoryK)) =
      [some (.str uncategorizedS)] ∧
    ((handleSaveCategoryRev3 (litS "Food") (litS "1") [⟨litS "1", litS "Groceries"⟩]
        [txSetCategory
          (buildTx 0 0 (.obj [(litS "date", .str (litS "2024-01-05")),
                              (litS "description", .str (litS "Coffee")),
                              (litS "amount", .num 5 0), (litS "type", .str (litS "debit"))]))
          (litS "Groceries")]).2.map (fun t => getField t categoryK)) =
      [some (.str (litS "Groceries"))] ∧
    (∀ (name cid : Str) (cats : List Category) (txs : List JVal),
      (handleSaveCategoryRev3 name cid cats txs).2 = txs) :=
  ⟨rfl, rfl, rfl, fun _ _ _ _ => rfl⟩

/-- C9 (counterexample): a record carrying the extra key `"foo"` beyond
    the four required ones is accepted, and the spread carries the extra
    wire field into the stored transaction object. -/
theorem extra_fields_stored :
    decodeLine (litS "\x7b\"date\":\"2024-01-01\",\"description\":\"x\",\"amount\":1,\"type\":\"debit\",\"foo\":\"bar\"\x7d") =
      some (.obj [(litS "date", .str (litS "2024-01-01")),
                  (litS "description", .str (litS "x")),
                  (litS "amount", .num 1 0), (litS "type", .str (litS "debit")),
                  (litS "foo", .str (litS "bar"))]) ∧
    getField
        (buildTx 0 0 (.obj [(litS "date", .str (litS "2024-01-01")),
                            (litS "description", .str (litS "x")),
                            (litS "amount", .num 1 0), (litS "type", .str (litS "debit")),
                            (litS "foo", .str (litS "bar"))]))
        (litS "foo") = some (.str (litS "bar")) ∧
    ¬ (litS "foo") ∈ [idK, dateK, descriptionK, amountK, typeK, categoryK, notesK] :=
  ⟨rfl, rfl, by decide⟩

/-- C9 (amended): the identity assignment `{ ...txData, id, category }`
    copies every wire field of the accepted record into the stored
    transaction unchanged — extra keys included — overwriting only `id`
    and `category`. -/
theorem spread_carries_wire_fields (now cnt : Nat) (o : JVal) (k : Str)
    (h1 : ¬ k = idK) (h2 : ¬ k = categoryK) :
    getField (buildTx now cnt o) k = getField o k :=
  getField_buildTx_other now cnt o k h1 h2

/-- Witness for C9 (amended) at the extra key `"foo"` of the
    counterexample record. -/
theorem spread_carries_wire_fields_witness :
    getField
        (buildTx 0 0 (.obj [(litS "date", .str (litS "2024-01-01")),
                            (litS "description", .str (litS "x")),
                            (litS "amount", .num 1 0), (litS "type", .str (litS "debit")),
                            (litS "foo", .str (litS "bar"))]))
        (litS "foo") =
      getField
        (.obj [(litS "date", .str (litS "2024-01-01")),
               (litS "description", .str (litS "x")),
               (litS "amount", .num 1 0), (litS "type", .str (litS "debit")),
               (litS "foo", .str (litS "bar"))])
        (litS "foo") :=
  spread_carries_wire_fields 0 0
    (.obj [(litS "date", .str (litS "2024-01-01")),
           (litS "description", .str (litS "x")),
           (litS "amount", .num 1 0), (litS "type", .str (litS "debit")),
           (litS "foo", .str (litS "bar"))])
    (litS "foo") (by decide) (by decide)

/-- C10: a line parsing to a record whose `date` or `description` is the
    empty string, or whose `type` is falsy, is rejected even though all
    four fields are present with the right shapes; acceptance requires
    `date`, `description` and `type` to be truthy. -/
theorem falsy_required_fields_reject (line : Str) (o : JVal)
    (hp : jsParse line = some o) :
    ((getField o dateK = some (.str []) ∨ getField o descriptionK = some (.str []) ∨
        truthy (getField o typeK) = false) → decodeLine line = none) ∧
    (∀ o2, decodeLine line = some o2 →
      truthy (getField o2 dateK) = true ∧ truthy (getField o2 descriptionK) = true ∧
        truthy (getField o2 typeK) = true) := by
  constructor
  · intro hfalsy
    have hrc : recordCheck o = false := by
      unfold recordCheck
      rcases hfalsy with h | h | h
      · simp [h, truthy]
      · simp [h, truthy]
      · simp [h]
    unfold decodeLine
    by_cases ht : (jsTrim line).isEmpty
    · simp [ht]
    · rw [if_neg (by simp [ht]), hp]
      change (if recordCheck o = true then some o else none) = none
      rw [if_neg (by simp [hrc])]
  · intro o2 h2
    obtain ⟨_, hc⟩ := decodeLine_accepted h2
    unfold recordCheck at hc
    simp only [Bool.and_eq_true] at hc
    exact ⟨hc.1.1.1, hc.1.1.2, hc.2⟩

/-- Witness for C10: the record with an empty `date` — all four required
    fields present and well-shaped — is rejected by the decoder. -/
theorem falsy_required_fields_reject_witness :
    jsParse (litS "\x7b\"date\":\"\",\"description\":\"x\",\"amount\":1,\"type\":\"debit\"\x7d") =
      some (.obj [(litS "date", .str []), (litS "description", .str (litS "x")),
                  (litS "amount", .num 1 0), (litS "type", .str (litS "debit"))]) ∧
    decodeLine (litS "\x7b\"date\":\"\",\"description\":\"x\",\"amount\":1,\"type\":\"debit\"\x7d") = none :=
  ⟨rfl,
    (falsy_required_fields_reject
      (litS "\x7b\"date\":\"\",\"description\":\"x\",\"amount\":1,\"type\":\"debit\"\x7d")
      (.obj [(litS "date", .str []), (litS "description", .str (litS "x")),
             (litS "amount", .num 1 0), (litS "type", .str (litS "debit"))])
      rfl).1 (Or.inl rfl)⟩

end BankStatement
